import Mathlib

/-!
Verification development for the dex-liquidity backend
(order-book cache, per-key manager state, liquidity calculator,
price history). Prices, sizes and timestamps are embedded as
rationals; Python dicts keyed by price are embedded as association
lists with unique keys (insertion order preserved, as CPython dicts do).
-/

/-- A single order-book level (`models.OrderBookLevel`). -/
structure OrderBookLevel where
  price : ℚ
  size : ℚ
deriving DecidableEq, Repr

/-- A price-to-size mapping (`Dict[float, float]` in the source),
kept in insertion order like a CPython dict. -/
abbrev PriceMap := List (ℚ × ℚ)

/-- Dict assignment `m[p] = s`: overwrite in place when the price is
present, append otherwise. -/
def mapSet (m : PriceMap) (p s : ℚ) : PriceMap :=
  if m.any fun e => decide (e.1 = p) then
    m.map fun e => if e.1 = p then (p, s) else e
  else m ++ [(p, s)]

/-- Dict removal `m.pop(p, None)`: drop the entry at price `p`. -/
def mapPop (m : PriceMap) (p : ℚ) : PriceMap :=
  m.filter fun e => decide (e.1 ≠ p)

/-- Dict lookup `m.get(p)`: the size stored at price `p`, if any. -/
def mapLookup : PriceMap → ℚ → Option ℚ
  | [], _ => none
  | e :: m, p => if e.1 = p then some e.2 else mapLookup m p

/-- State of `OrderbookCache` (`orderbook_cache.py`): bid and ask
price-to-size maps, last update timestamp and the `_initialized` flag. -/
structure OrderbookCache where
  bids : PriceMap
  asks : PriceMap
  lastUpdateTimestamp : ℚ
  inited : Bool
deriving DecidableEq, Repr

/-- A fresh cache, as built by `OrderbookCache.__init__`. -/
def emptyCache : OrderbookCache :=
  { bids := [], asks := [], lastUpdateTimestamp := 0, inited := false }

/-- Embeds `OrderbookCache.initialize`: clear both maps, then store every input
level as-is (no size filtering happens on this path). -/
def OrderbookCache.initFull (_c : OrderbookCache)
    (bids asks : List OrderBookLevel) (ts : ℚ) : OrderbookCache :=
  { bids := bids.foldl (fun m l => mapSet m l.price l.size) [],
    asks := asks.foldl (fun m l => mapSet m l.price l.size) [],
    lastUpdateTimestamp := ts,
    inited := true }

/-- One side of the diff loop in `OrderbookCache.update`: size ≤ 0
removes the price, otherwise the size is inserted or overwritten. -/
def applyDiffSide (m : PriceMap) (levels : List OrderBookLevel) : PriceMap :=
  levels.foldl
    (fun acc l => if l.size ≤ 0 then mapPop acc l.price else mapSet acc l.price l.size) m

/-- Embeds `OrderbookCache.update`: falls back to initialization when the cache
is uninitialized, else applies the diff to both sides. -/
def OrderbookCache.updateCache (c : OrderbookCache)
    (bids asks : List OrderBookLevel) (ts : ℚ) : OrderbookCache :=
  if c.inited = false then c.initFull bids asks ts
  else
    { c with
      bids := applyDiffSide c.bids bids,
      asks := applyDiffSide c.asks asks,
      lastUpdateTimestamp := ts }

/-- Embeds `OrderbookCache.get_sorted_levels` (without the optional limit, as
the manager calls it): bids sorted descending by price, asks ascending.
Python's stable `sorted` is embedded as insertion sort. -/
def OrderbookCache.getSortedLevels (c : OrderbookCache) :
    List OrderBookLevel × List OrderBookLevel :=
  ((List.insertionSort (fun a b => b.1 ≤ a.1) c.bids).map fun e => ⟨e.1, e.2⟩,
   (List.insertionSort (fun a b => a.1 ≤ b.1) c.asks).map fun e => ⟨e.1, e.2⟩)

/-- Embeds `OrderbookCache.has_valid_book`: initialized and both sides non-empty. -/
def OrderbookCache.hasValidBook (c : OrderbookCache) : Bool :=
  c.inited && decide (0 < c.bids.length) && decide (0 < c.asks.length)

/-- Embeds `models.OrderBookSnapshot` (the fields the claims are about). -/
structure OrderBookSnapshot where
  bids : List OrderBookLevel
  asks : List OrderBookLevel
  timestamp : ℚ
deriving DecidableEq, Repr

/-- Embeds `OrderBookSnapshot.mid_price`: non-null exactly when both sides are
non-empty lists (`if self.bids and self.asks`). -/
def OrderBookSnapshot.midPrice (s : OrderBookSnapshot) : Option ℚ :=
  match s.bids, s.asks with
  | b :: _, a :: _ => some ((b.price + a.price) / 2)
  | _, _ => none

/-- Embeds `OrderBookSnapshot.spread`. -/
def OrderBookSnapshot.spreadVal (s : OrderBookSnapshot) : Option ℚ :=
  match s.bids, s.asks with
  | b :: _, a :: _ => some (a.price - b.price)
  | _, _ => none

/-- Embeds `OrderBookSnapshot.spread_bps`: the source guard is
`if self.mid_price and self.spread`, Python truthiness, so a mid of 0 or
a spread of 0 short-circuits to None as well. -/
def OrderBookSnapshot.spreadBps (s : OrderBookSnapshot) : Option ℚ :=
  match s.midPrice, s.spreadVal with
  | some m, some sp => if m ≠ 0 ∧ sp ≠ 0 then some (sp / m * 10000) else none
  | _, _ => none

/-- Embeds `models.LiquidityMetric`. -/
structure LiquidityMetric where
  size_usd : ℚ
  total_cost : ℚ
  avg_price : ℚ
  slippage_bps : ℚ
  levels_used : ℕ
  feasible : Bool
deriving DecidableEq, Repr

/-- Accumulator of the level-walking loop shared by
`calculate_buy_cost` and `calculate_sell_cost` (the two loop bodies in
the source are literally identical; only the slippage sign afterwards
differs). -/
structure WalkState where
  remaining : ℚ
  totalCost : ℚ
  totalTokens : ℚ
  levelsUsed : ℕ
deriving DecidableEq, Repr

/-- The level-walking loop: stop when nothing remains; a level whose
notional covers the remainder is consumed partially (dividing the
remainder by its price) and the walk ends; otherwise the whole level is
consumed. -/
def walkLevels : List OrderBookLevel → WalkState → WalkState
  | [], st => st
  | l :: rest, st =>
    if st.remaining ≤ 0 then st
    else if l.price * l.size ≥ st.remaining then
      { remaining := 0,
        totalCost := st.totalCost + st.remaining,
        totalTokens := st.totalTokens + st.remaining / l.price,
        levelsUsed := st.levelsUsed + 1 }
    else
      walkLevels rest
        { remaining := st.remaining - l.price * l.size,
          totalCost := st.totalCost + l.price * l.size,
          totalTokens := st.totalTokens + l.size,
          levelsUsed := st.levelsUsed + 1 }

/-- Embeds `LiquidityCalculator.calculate_buy_cost`. -/
def calculate_buy_cost (asks : List OrderBookLevel)
    (size_usd current_price : ℚ) : LiquidityMetric :=
  match asks with
  | [] =>
    { size_usd := size_usd, total_cost := 0, avg_price := 0,
      slippage_bps := 0, levels_used := 0, feasible := false }
  | _ :: _ =>
    let st := walkLevels asks ⟨size_usd, 0, 0, 0⟩
    let feas := decide (st.remaining ≤ 1 / 100)
    if 0 < st.totalTokens then
      let avg := st.totalCost / st.totalTokens
      let slip := if 0 < current_price then avg - current_price else 0
      let bps := if 0 < current_price then slip / current_price * 10000 else 0
      { size_usd := size_usd, total_cost := st.totalCost, avg_price := avg,
        slippage_bps := bps, levels_used := st.levelsUsed, feasible := feas }
    else
      { size_usd := size_usd, total_cost := st.totalCost, avg_price := 0,
        slippage_bps := 0, levels_used := st.levelsUsed, feasible := feas }

/-- Embeds `LiquidityCalculator.calculate_sell_cost` (same walk over the bids;
slippage is `current_price - avg_price`). -/
def calculate_sell_cost (bids : List OrderBookLevel)
    (size_usd current_price : ℚ) : LiquidityMetric :=
  match bids with
  | [] =>
    { size_usd := size_usd, total_cost := 0, avg_price := 0,
      slippage_bps := 0, levels_used := 0, feasible := false }
  | _ :: _ =>
    let st := walkLevels bids ⟨size_usd, 0, 0, 0⟩
    let feas := decide (st.remaining ≤ 1 / 100)
    if 0 < st.totalTokens then
      let avg := st.totalCost / st.totalTokens
      let slip := if 0 < current_price then current_price - avg else 0
      let bps := if 0 < current_price then slip / current_price * 10000 else 0
      { size_usd := size_usd, total_cost := st.totalCost, avg_price := avg,
        slippage_bps := bps, levels_used := st.levelsUsed, feasible := feas }
    else
      { size_usd := size_usd, total_cost := st.totalCost, avg_price := 0,
        slippage_bps := 0, levels_used := st.levelsUsed, feasible := feas }

/-- The ladder of notional sizes (`config.LIQUIDITY_SIZES`). -/
def LIQUIDITY_SIZES : List ℚ :=
  [1000, 5000, 10000, 50000, 100000, 200000, 500000, 1000000]

/-- Embeds `models.LiquidityMetrics` for one (exchange, market): the per-size
metrics map, keyed by size, holding a buy and a sell metric. -/
structure LiquidityMetrics where
  timestamp : ℚ
  metrics : List (ℚ × LiquidityMetric × LiquidityMetric)
deriving DecidableEq, Repr

/-- Embeds `LiquidityCalculator.calculate_all_metrics`: on a null mid price the
metrics map is returned empty; otherwise one buy/sell metric pair per
ladder size. -/
def calculate_all_metrics (ob : OrderBookSnapshot) (sizes : List ℚ) :
    LiquidityMetrics :=
  match ob.midPrice with
  | none => { timestamp := ob.timestamp, metrics := [] }
  | some mid =>
    { timestamp := ob.timestamp,
      metrics := sizes.map fun s =>
        (s, calculate_buy_cost ob.asks s mid, calculate_sell_cost ob.bids s mid) }

/-- Division that records (via `Option`) whether a division by zero was
evaluated; used to state the division-safety claim. -/
def divChecked (a b : ℚ) : Option ℚ :=
  if b = 0 then none else some (a / b)

/-- The level walk, with every division routed through `divChecked`. -/
def walkLevelsChecked : List OrderBookLevel → WalkState → Option WalkState
  | [], st => some st
  | l :: rest, st =>
    if st.remaining ≤ 0 then some st
    else if l.price * l.size ≥ st.remaining then
      (divChecked st.remaining l.price).map fun t =>
        { remaining := 0,
          totalCost := st.totalCost + st.remaining,
          totalTokens := st.totalTokens + t,
          levelsUsed := st.levelsUsed + 1 }
    else
      walkLevelsChecked rest
        { remaining := st.remaining - l.price * l.size,
          totalCost := st.totalCost + l.price * l.size,
          totalTokens := st.totalTokens + l.size,
          levelsUsed := st.levelsUsed + 1 }

/-- Variant of `calculate_buy_cost` with every division routed through `divChecked`. -/
def calculate_buy_cost_checked (asks : List OrderBookLevel)
    (size_usd current_price : ℚ) : Option LiquidityMetric :=
  match asks with
  | [] =>
    some { size_usd := size_usd, total_cost := 0, avg_price := 0,
           slippage_bps := 0, levels_used := 0, feasible := false }
  | _ :: _ => do
    let st ← walkLevelsChecked asks ⟨size_usd, 0, 0, 0⟩
    let feas := decide (st.remaining ≤ 1 / 100)
    if 0 < st.totalTokens then
      let avg ← divChecked st.totalCost st.totalTokens
      let slip := if 0 < current_price then avg - current_price else 0
      let bps ← if 0 < current_price then
          (divChecked slip current_price).map fun x => x * 10000
        else some 0
      some { size_usd := size_usd, total_cost := st.totalCost, avg_price := avg,
             slippage_bps := bps, levels_used := st.levelsUsed, feasible := feas }
    else
      some { size_usd := size_usd, total_cost := st.totalCost, avg_price := 0,
             slippage_bps := 0, levels_used := st.levelsUsed, feasible := feas }

/-- Variant of `calculate_sell_cost` with every division routed through `divChecked`. -/
def calculate_sell_cost_checked (bids : List OrderBookLevel)
    (size_usd current_price : ℚ) : Option LiquidityMetric :=
  match bids with
  | [] =>
    some { size_usd := size_usd, total_cost := 0, avg_price := 0,
           slippage_bps := 0, levels_used := 0, feasible := false }
  | _ :: _ => do
    let st ← walkLevelsChecked bids ⟨size_usd, 0, 0, 0⟩
    let feas := decide (st.remaining ≤ 1 / 100)
    if 0 < st.totalTokens then
      let avg ← divChecked st.totalCost st.totalTokens
      let slip := if 0 < current_price then current_price - avg else 0
      let bps ← if 0 < current_price then
          (divChecked slip current_price).map fun x => x * 10000
        else some 0
      some { size_usd := size_usd, total_cost := st.totalCost, avg_price := avg,
             slippage_bps := bps, levels_used := st.levelsUsed, feasible := feas }
    else
      some { size_usd := size_usd, total_cost := st.totalCost, avg_price := 0,
             slippage_bps := 0, levels_used := st.levelsUsed, feasible := feas }

/-- Embeds `models.PricePoint`. -/
structure PricePoint where
  timestamp : ℚ
  price : ℚ
deriving DecidableEq, Repr

/-- Embeds `OrderBookManager._update_price_history` for one key: append the new
point, then pop stale points from the front while the front timestamp is
older than `ts - winSecs`. -/
def updatePriceHistory (hist : List PricePoint) (price ts winSecs : ℚ) :
    List PricePoint :=
  (hist ++ [({ timestamp := ts, price := price } : PricePoint)]).dropWhile
    fun p => decide (p.timestamp < ts - winSecs)

/-- A sequence of price-history appends, each `(timestamp, price)`,
starting from the empty history. -/
def runHistory (appends : List (ℚ × ℚ)) (winSecs : ℚ) : List PricePoint :=
  appends.foldl (fun h e => updatePriceHistory h e.2 e.1 winSecs) []

/-- One tick-price callback invocation (`_price_update_callback` call),
recording its price and timestamp arguments. -/
structure TickEvent where
  price : ℚ
  timestamp : ℚ
deriving DecidableEq, Repr

/-- The per-(exchange, market) slice of `OrderBookManager` state: the
cache, the stored snapshot and metrics slots, the price history, the
history window, and whether a price-update callback is registered. -/
structure BookState where
  cache : OrderbookCache
  orderbook : Option OrderBookSnapshot
  metrics : Option LiquidityMetrics
  priceHistory : List PricePoint
  phSeconds : ℚ
  hasCallback : Bool
deriving DecidableEq, Repr

/-- Embeds `OrderBookManager._update_from_cache`: bail out when the cache has
no valid book (leaving snapshot and metrics untouched); otherwise store
the fresh snapshot, and when its mid is non-null append to the price
history and fire the callback (when registered), then recompute and
store the liquidity metrics. The returned list holds the callback
invocations of this call. -/
def updateFromCache (st : BookState) (ts : ℚ) : BookState × List TickEvent :=
  if st.cache.hasValidBook = false then (st, [])
  else
    let sorted := st.cache.getSortedLevels
    let snap : OrderBookSnapshot := ⟨sorted.1, sorted.2, ts⟩
    let st1 := { st with orderbook := some snap }
    match snap.midPrice with
    | some mid =>
      let st2 :=
        { st1 with
          priceHistory := updatePriceHistory st1.priceHistory mid ts st1.phSeconds }
      let events : List TickEvent :=
        if st.hasCallback then [{ price := mid, timestamp := ts }] else []
      let st3 : BookState :=
        { st2 with metrics := some (calculate_all_metrics snap LIQUIDITY_SIZES) }
      (st3, events)
    | none =>
      let st3 : BookState :=
        { st1 with metrics := some (calculate_all_metrics snap LIQUIDITY_SIZES) }
      (st3, [])

/-- Embeds `OrderBookManager.initialize_orderbook` for one key (the success
path: initialize the cache, then derive from it). -/
def initOrderbook (st : BookState) (bids asks : List OrderBookLevel)
    (ts : ℚ) : BookState × List TickEvent :=
  updateFromCache { st with cache := st.cache.initFull bids asks ts } ts

/-- Embeds `OrderBookManager.update_orderbook` for one key: a snapshot flag or
an uninitialized cache reinitializes, otherwise the diff is applied;
then derive from the cache. -/
def updateOrderbook (st : BookState) (bids asks : List OrderBookLevel)
    (ts : ℚ) (is_snapshot : Bool) : BookState × List TickEvent :=
  let c :=
    if is_snapshot || !st.cache.inited then st.cache.initFull bids asks ts
    else st.cache.updateCache bids asks ts
  updateFromCache { st with cache := c } ts

/-- One book-store operation: a full snapshot (`initialize`) or an
incremental diff (`update`). -/
inductive BookOp where
  | snap (bids asks : List OrderBookLevel) (ts : ℚ)
  | diff (bids asks : List OrderBookLevel) (ts : ℚ)
deriving DecidableEq, Repr

/-- Run a sequence of cache operations. -/
def runOps (c : OrderbookCache) (ops : List BookOp) : OrderbookCache :=
  ops.foldl
    (fun c op => match op with
      | .snap b a ts => c.initFull b a ts
      | .diff b a ts => c.updateCache b a ts) c

/-- The fresh per-key manager state. -/
def initialBookState (phSeconds : ℚ) (cb : Bool) : BookState :=
  { cache := emptyCache, orderbook := none, metrics := none,
    priceHistory := [], phSeconds := phSeconds, hasCallback := cb }
/-! ### Lookup lemmas for the price maps -/

theorem mapLookup_append_single (m : PriceMap) (p s q : ℚ)
    (h : (m.any fun e => decide (e.1 = p)) = false) :
    mapLookup (m ++ [(p, s)]) q = if q = p then some s else mapLookup m q := by
  induction m with
  | nil =>
    by_cases hq : q = p
    · subst hq; simp [mapLookup]
    · simp [mapLookup, Ne.symm hq, hq]
  | cons e m ih =>
    simp only [List.any_cons, Bool.or_eq_false_iff, decide_eq_false_iff_not] at h
    by_cases he : e.1 = q
    · have hqp : q ≠ p := fun hqp => h.1 (he.trans hqp)
      simp [mapLookup, he, hqp]
    · have := ih (by simpa using h.2)
      simpa [mapLookup, he] using this

theorem mapLookup_map_ne (m : PriceMap) (p s q : ℚ) (hq : q ≠ p) :
    mapLookup (m.map fun e => if e.1 = p then (p, s) else e) q = mapLookup m q := by
  induction m with
  | nil => rfl
  | cons e m ih =>
    by_cases he : e.1 = p
    · have he2 : e.1 ≠ q := fun h2 => hq (h2 ▸ he)
      simp [mapLookup, he, he2, Ne.symm hq, ih]
    · by_cases he2 : e.1 = q
      · simp [mapLookup, he, he2, hq]
      · simp [mapLookup, he, he2, ih]

theorem mapLookup_map_self (m : PriceMap) (p s : ℚ)
    (h : (m.any fun e => decide (e.1 = p)) = true) :
    mapLookup (m.map fun e => if e.1 = p then (p, s) else e) p = some s := by
  induction m with
  | nil => simp at h
  | cons e m ih =>
    by_cases he : e.1 = p
    · simp [mapLookup, he]
    · simp only [List.any_cons, Bool.or_eq_true_iff, decide_eq_true_eq] at h
      rcases h with h | h
      · exact absurd h he
      · simpa [mapLookup, he] using ih h

theorem mapLookup_mapSet (m : PriceMap) (p s q : ℚ) :
    mapLookup (mapSet m p s) q = if q = p then some s else mapLookup m q := by
  unfold mapSet
  by_cases hany : (m.any fun e => decide (e.1 = p)) = true
  · rw [if_pos hany]
    by_cases hq : q = p
    · rw [if_pos hq, hq]
      exact mapLookup_map_self m p s hany
    · rw [if_neg hq]
      exact mapLookup_map_ne m p s q hq
  · rw [if_neg hany]
    exact mapLookup_append_single m p s q (Bool.eq_false_iff.mpr hany)

theorem mapLookup_mapPop (m : PriceMap) (p q : ℚ) :
    mapLookup (mapPop m p) q = if q = p then none else mapLookup m q := by
  induction m with
  | nil => by_cases hq : q = p <;> simp [mapPop, mapLookup, hq]
  | cons e m ih =>
    rw [mapPop, List.filter_cons]
    by_cases he : e.1 = p
    · rw [if_neg (by simp [he])]
      by_cases hq : q = p
      · simpa [hq, mapPop] using ih
      · have he2 : e.1 ≠ q := fun h2 => hq (h2.symm.trans he)
        simpa [mapLookup, hq, he2, mapPop] using ih
    · rw [if_pos (by simp [he])]
      by_cases he2 : e.1 = q
      · have hq : q ≠ p := fun h2 => he (he2.trans h2)
        simp [mapLookup, he2, hq]
      · simpa [mapLookup, he2, mapPop] using ih

/-! ### The diff semantics of an update -/

/-- What the diff loop leaves at price `p`: the last input level
mentioning `p` wins (size ≤ 0 means removed, positive size stored);
a price no input level mentions keeps its previous entry. -/
def diffResultAt (levels : List OrderBookLevel) (m : PriceMap) (p : ℚ) : Option ℚ :=
  match levels.reverse.find? fun l => decide (l.price = p) with
  | some l => if l.size ≤ 0 then none else some l.size
  | none => mapLookup m p

theorem applyDiffSide_lookup (levels : List OrderBookLevel) (m : PriceMap) (p : ℚ) :
    mapLookup (applyDiffSide m levels) p = diffResultAt levels m p := by
  induction levels generalizing m with
  | nil => rfl
  | cons l ls ih =>
    have hstep : applyDiffSide m (l :: ls) =
        applyDiffSide (if l.size ≤ 0 then mapPop m l.price else mapSet m l.price l.size) ls :=
      rfl
    rw [hstep, ih]
    cases hfind : ls.reverse.find? fun l' => decide (l'.price = p) with
    | some l' =>
      simp only [diffResultAt, List.reverse_cons, List.find?_append, hfind]
      rfl
    | none =>
      simp only [diffResultAt, List.reverse_cons, List.find?_append, hfind, Option.none_or]
      by_cases hlp : l.price = p
      · by_cases hsz : l.size ≤ 0
        · simp [List.find?, hlp, hsz, mapLookup_mapPop]
        · simp [List.find?, hlp, hsz, mapLookup_mapSet]
      · by_cases hsz : l.size ≤ 0
        · simp [List.find?, hlp, hsz, mapLookup_mapPop, Ne.symm hlp]
        · simp [List.find?, hlp, hsz, mapLookup_mapSet, Ne.symm hlp]

/-- Deriving the snapshot and metrics never touches the cache itself. -/
theorem updateFromCache_cache (st : BookState) (ts : ℚ) :
    (updateFromCache st ts).1.cache = st.cache := by
  unfold updateFromCache
  split
  · rfl
  · cases hmid : (OrderBookSnapshot.mk st.cache.getSortedLevels.1
      st.cache.getSortedLevels.2 ts).midPrice <;> simp [hmid]

/-- The cache resulting from `update_orderbook` is the initialized or
diffed cache chosen by the snapshot test. -/
theorem updateOrderbook_cache (st : BookState) (b a : List OrderBookLevel)
    (ts : ℚ) (snap : Bool) :
    (updateOrderbook st b a ts snap).1.cache =
      if snap || !st.cache.inited then st.cache.initFull b a ts
      else st.cache.updateCache b a ts := by
  unfold updateOrderbook
  rw [updateFromCache_cache]

/-- C1: if `is_snapshot` is set or the book is uninitialized, the update
operation produces exactly the price maps of `initialize` on the same
inputs; otherwise it applies a diff in which, at each price, the last
input level mentioning it wins (size ≤ 0 removes the price, a positive
size is inserted or overwritten) and every unmentioned price keeps its
previous size. -/
theorem C1_update_semantics (st : BookState) (bids asks : List OrderBookLevel)
    (ts : ℚ) (is_snapshot : Bool) :
    ((is_snapshot = true ∨ st.cache.inited = false) →
      (updateOrderbook st bids asks ts is_snapshot).1.cache.bids =
          (st.cache.initFull bids asks ts).bids ∧
      (updateOrderbook st bids asks ts is_snapshot).1.cache.asks =
          (st.cache.initFull bids asks ts).asks) ∧
    (is_snapshot = false → st.cache.inited = true →
      (∀ p, mapLookup (updateOrderbook st bids asks ts is_snapshot).1.cache.bids p =
          diffResultAt bids st.cache.bids p) ∧
      (∀ p, mapLookup (updateOrderbook st bids asks ts is_snapshot).1.cache.asks p =
          diffResultAt asks st.cache.asks p)) := by
  constructor
  · intro h
    have hc : (is_snapshot || !st.cache.inited) = true := by
      rcases h with h | h <;> simp [h]
    rw [updateOrderbook_cache, if_pos (by simp [hc])]
    exact ⟨rfl, rfl⟩
  · intro h1 h2
    rw [updateOrderbook_cache, if_neg (by simp [h1, h2])]
    unfold OrderbookCache.updateCache
    rw [if_neg (by simp [h2])]
    exact ⟨fun p => applyDiffSide_lookup bids st.cache.bids p,
           fun p => applyDiffSide_lookup asks st.cache.asks p⟩

/-- A small already-initialized manager state used by witnesses. -/
def seededState : BookState :=
  { cache := { bids := [(100, 1)], asks := [(102, 1)],
               lastUpdateTimestamp := 1, inited := true },
    orderbook := none, metrics := none, priceHistory := [],
    phSeconds := 3600, hasCallback := true }

/-- Witness for C1: both branches exercised at concrete inputs. -/
theorem C1_update_semantics_witness :
    ((updateOrderbook (initialBookState 3600 true) [⟨100, 1⟩] [⟨101, 2⟩] 5 true).1.cache.bids =
        ((initialBookState 3600 true).cache.initFull [⟨100, 1⟩] [⟨101, 2⟩] 5).bids) ∧
    (mapLookup (updateOrderbook seededState [⟨99, 3⟩] [] 2 false).1.cache.bids 99 =
        diffResultAt [⟨99, 3⟩] seededState.cache.bids 99) :=
  ⟨((C1_update_semantics (initialBookState 3600 true) [⟨100, 1⟩] [⟨101, 2⟩] 5 true).1
      (Or.inl rfl)).1,
   ((C1_update_semantics seededState [⟨99, 3⟩] [] 2 false).2 rfl rfl).1 99⟩

/-! ### Positivity of stored sizes -/

/-- Every stored level on both sides has strictly positive size. -/
def PosSizes (c : OrderbookCache) : Prop :=
  (∀ e ∈ c.bids, 0 < e.2) ∧ (∀ e ∈ c.asks, 0 < e.2)

/-- Snapshot-type operations carry only positive sizes; diff inputs are
unconstrained. -/
def snapInputsPos : BookOp → Prop
  | .snap b a _ => (∀ l ∈ b, 0 < l.size) ∧ (∀ l ∈ a, 0 < l.size)
  | .diff _ _ _ => True

theorem mem_mapSet (m : PriceMap) (p s : ℚ) (e : ℚ × ℚ)
    (he : e ∈ mapSet m p s) : e ∈ m ∨ e = (p, s) := by
  unfold mapSet at he
  split at he
  · rcases List.mem_map.mp he with ⟨x, hx, hfx⟩
    by_cases hxp : x.1 = p
    · right
      rw [if_pos hxp] at hfx
      exact hfx.symm
    · left
      rw [if_neg hxp] at hfx
      exact hfx ▸ hx
  · rcases List.mem_append.mp he with h | h
    · exact Or.inl h
    · exact Or.inr (List.mem_singleton.mp h)

theorem mem_mapPop (m : PriceMap) (p : ℚ) (e : ℚ × ℚ)
    (he : e ∈ mapPop m p) : e ∈ m :=
  List.mem_of_mem_filter he

theorem posEntries_fill (levels : List OrderBookLevel) (m : PriceMap)
    (hm : ∀ e ∈ m, 0 < e.2) (hl : ∀ l ∈ levels, 0 < l.size) :
    ∀ e ∈ levels.foldl (fun m l => mapSet m l.price l.size) m, 0 < e.2 := by
  induction levels generalizing m with
  | nil => exact hm
  | cons l ls ih =>
    refine ih (mapSet m l.price l.size) ?_ fun x hx => hl x (List.mem_cons_of_mem l hx)
    intro e he
    rcases mem_mapSet m l.price l.size e he with h | h
    · exact hm e h
    · rw [h]
      exact hl l (List.mem_cons_self l ls)

theorem posEntries_applyDiff (levels : List OrderBookLevel) (m : PriceMap)
    (hm : ∀ e ∈ m, 0 < e.2) :
    ∀ e ∈ applyDiffSide m levels, 0 < e.2 := by
  induction levels generalizing m with
  | nil => exact hm
  | cons l ls ih =>
    have hstep : applyDiffSide m (l :: ls) =
        applyDiffSide (if l.size ≤ 0 then mapPop m l.price else mapSet m l.price l.size) ls :=
      rfl
    rw [hstep]
    refine ih _ ?_
    intro e he
    by_cases hsz : l.size ≤ 0
    · rw [if_pos hsz] at he
      exact hm e (mem_mapPop m l.price e he)
    · rw [if_neg hsz] at he
      rcases mem_mapSet m l.price l.size e he with h | h
      · exact hm e h
      · rw [h]
        exact lt_of_not_le hsz

theorem posSizes_initFull (c : OrderbookCache) (b a : List OrderBookLevel) (ts : ℚ)
    (hb : ∀ l ∈ b, 0 < l.size) (ha : ∀ l ∈ a, 0 < l.size) :
    PosSizes (c.initFull b a ts) :=
  ⟨posEntries_fill b [] (by simp) hb, posEntries_fill a [] (by simp) ha⟩

theorem runOps_posSizes (ops : List BookOp) (c : OrderbookCache)
    (hc : PosSizes c) (hci : c.inited = true)
    (hops : ∀ op ∈ ops, snapInputsPos op) :
    PosSizes (runOps c ops) ∧ (runOps c ops).inited = true := by
  induction ops generalizing c with
  | nil => exact ⟨hc, hci⟩
  | cons op ops ih =>
    have hops' : ∀ op' ∈ ops, snapInputsPos op' :=
      fun op' h => hops op' (List.mem_cons_of_mem op h)
    cases op with
    | snap b a ts =>
      have hpos := hops _ (List.mem_cons_self _ _)
      exact ih (c.initFull b a ts) (posSizes_initFull c b a ts hpos.1 hpos.2) rfl hops'
    | diff b a ts =>
      have hcache : c.updateCache b a ts =
          { c with
            bids := applyDiffSide c.bids b,
            asks := applyDiffSide c.asks a,
            lastUpdateTimestamp := ts } := by
        unfold OrderbookCache.updateCache
        rw [if_neg (by simp [hci])]
      refine ih (c.updateCache b a ts) ?_ ?_ hops'
      · rw [hcache]
        exact ⟨posEntries_applyDiff b c.bids hc.1, posEntries_applyDiff a c.asks hc.2⟩
      · rw [hcache]
        exact hci

/-- C2 counterexample: an `initialize` whose input carries a zero-size
level stores that level verbatim, so a size that is not strictly
positive ends up in the bid map. -/
theorem C2_counterexample :
    ((1 : ℚ), (0 : ℚ)) ∈ (emptyCache.initFull [⟨1, 0⟩] [] 0).bids ∧
      ¬(0 < (0 : ℚ)) := by
  constructor
  · simp [emptyCache, OrderbookCache.initFull, mapSet]
  · simp

/-- C2 (amended): after a book is first initialized, every stored size
is strictly positive provided every snapshot-type operation (the
initialize, and any later snapshot op) carries only positive sizes;
diff inputs may be arbitrary, including zero and negative sizes. -/
theorem C2_stored_sizes_positive (b a : List OrderBookLevel) (ts : ℚ)
    (ops : List BookOp)
    (hb : ∀ l ∈ b, 0 < l.size) (ha : ∀ l ∈ a, 0 < l.size)
    (hops : ∀ op ∈ ops, snapInputsPos op) :
    PosSizes (runOps emptyCache (BookOp.snap b a ts :: ops)) := by
  have hstep : runOps emptyCache (BookOp.snap b a ts :: ops) =
      runOps (emptyCache.initFull b a ts) ops := rfl
  rw [hstep]
  exact (runOps_posSizes ops (emptyCache.initFull b a ts)
    (posSizes_initFull emptyCache b a ts hb ha) rfl hops).1

/-- Witness for C2 (amended) at a concrete operation sequence with a
negative-size diff level. -/
theorem C2_stored_sizes_positive_witness :
    PosSizes (runOps emptyCache
      [BookOp.snap [⟨100, 1⟩] [⟨101, 2⟩] 1, BookOp.diff [⟨100, -3⟩, ⟨99, 5⟩] [] 2]) :=
  C2_stored_sizes_positive [⟨100, 1⟩] [⟨101, 2⟩] 1
    [BookOp.diff [⟨100, -3⟩, ⟨99, 5⟩] [] 2]
    (by intro l hl; simp at hl; rw [hl]; norm_num)
    (by intro l hl; simp at hl; rw [hl]; norm_num)
    (by intro op hop; simp at hop; rw [hop]; trivial)

/-! ### Unique prices per side, and strict sortedness -/

/-- The prices of a map are pairwise distinct (true of any dict). -/
def NodupKeys (m : PriceMap) : Prop := (m.map Prod.fst).Nodup

theorem nodupKeys_mapSet (m : PriceMap) (p s : ℚ) (h : NodupKeys m) :
    NodupKeys (mapSet m p s) := by
  unfold mapSet
  split
  · have hkeys : (m.map fun e => if e.1 = p then (p, s) else e).map Prod.fst =
        m.map Prod.fst := by
      rw [List.map_map]
      refine List.map_congr_left fun e _ => ?_
      by_cases he : e.1 = p
      · simp [he]
      · simp [he]
    unfold NodupKeys
    rw [hkeys]
    exact h
  · rename_i hany
    unfold NodupKeys
    rw [List.map_append]
    rw [List.nodup_append]
    refine ⟨h, List.nodup_singleton p, ?_⟩
    intro x hx hp
    simp at hp
    rcases List.mem_map.mp hx with ⟨e, he, hfst⟩
    rw [hp] at hfst
    exact hany (List.any_eq_true.mpr ⟨e, he, by simp [hfst]⟩)

theorem nodupKeys_mapPop (m : PriceMap) (p : ℚ) (h : NodupKeys m) :
    NodupKeys (mapPop m p) :=
  ((List.filter_sublist m).map Prod.fst).nodup h

theorem nodupKeys_fill (levels : List OrderBookLevel) (m : PriceMap)
    (hm : NodupKeys m) :
    NodupKeys (levels.foldl (fun m l => mapSet m l.price l.size) m) := by
  induction levels generalizing m with
  | nil => exact hm
  | cons l ls ih => exact ih _ (nodupKeys_mapSet m l.price l.size hm)

theorem nodupKeys_applyDiff (levels : List OrderBookLevel) (m : PriceMap)
    (hm : NodupKeys m) : NodupKeys (applyDiffSide m levels) := by
  induction levels generalizing m with
  | nil => exact hm
  | cons l ls ih =>
    have hstep : applyDiffSide m (l :: ls) =
        applyDiffSide (if l.size ≤ 0 then mapPop m l.price else mapSet m l.price l.size) ls :=
      rfl
    rw [hstep]
    refine ih _ ?_
    by_cases hsz : l.size ≤ 0
    · rw [if_pos hsz]
      exact nodupKeys_mapPop m l.price hm
    · rw [if_neg hsz]
      exact nodupKeys_mapSet m l.price l.size hm

theorem runOps_nodupKeys (ops : List BookOp) (c : OrderbookCache)
    (hb : NodupKeys c.bids) (ha : NodupKeys c.asks) :
    NodupKeys (runOps c ops).bids ∧ NodupKeys (runOps c ops).asks := by
  induction ops generalizing c with
  | nil => exact ⟨hb, ha⟩
  | cons op ops ih =>
    cases op with
    | snap b a ts =>
      exact ih (c.initFull b a ts) (nodupKeys_fill b [] List.nodup_nil)
        (nodupKeys_fill a [] List.nodup_nil)
    | diff b a ts =>
      unfold runOps
      rw [List.foldl_cons]
      show NodupKeys (runOps (c.updateCache b a ts) ops).bids ∧
        NodupKeys (runOps (c.updateCache b a ts) ops).asks
      unfold OrderbookCache.updateCache
      split
      · exact ih _ (nodupKeys_fill b [] List.nodup_nil) (nodupKeys_fill a [] List.nodup_nil)
      · exact ih _ (nodupKeys_applyDiff b c.bids hb) (nodupKeys_applyDiff a c.asks ha)

theorem pairwise_sort_desc (m : PriceMap) (h : NodupKeys m) :
    (List.insertionSort (fun a b : ℚ × ℚ => b.1 ≤ a.1) m).Pairwise
      fun x y => y.1 < x.1 := by
  haveI : IsTotal (ℚ × ℚ) fun a b => b.1 ≤ a.1 := ⟨fun a b => le_total b.1 a.1⟩
  haveI : IsTrans (ℚ × ℚ) fun a b => b.1 ≤ a.1 :=
    ⟨fun _ _ _ h1 h2 => le_trans h2 h1⟩
  have hsorted := List.sorted_insertionSort (fun a b : ℚ × ℚ => b.1 ≤ a.1) m
  have hperm := List.perm_insertionSort (fun a b : ℚ × ℚ => b.1 ≤ a.1) m
  have hnd : ((List.insertionSort (fun a b : ℚ × ℚ => b.1 ≤ a.1) m).map Prod.fst).Nodup :=
    ((hperm.map Prod.fst).nodup_iff).mpr h
  have hne := List.pairwise_map.mp hnd
  exact (hsorted.and hne).imp fun hxy => lt_of_le_of_ne hxy.1 (Ne.symm hxy.2)

theorem pairwise_sort_asc (m : PriceMap) (h : NodupKeys m) :
    (List.insertionSort (fun a b : ℚ × ℚ => a.1 ≤ b.1) m).Pairwise
      fun x y => x.1 < y.1 := by
  haveI : IsTotal (ℚ × ℚ) fun a b : ℚ × ℚ => a.1 ≤ b.1 := ⟨fun a b => le_total a.1 b.1⟩
  haveI : IsTrans (ℚ × ℚ) fun a b : ℚ × ℚ => a.1 ≤ b.1 :=
    ⟨fun _ _ _ h1 h2 => le_trans h1 h2⟩
  have hsorted := List.sorted_insertionSort (fun a b : ℚ × ℚ => a.1 ≤ b.1) m
  have hperm := List.perm_insertionSort (fun a b : ℚ × ℚ => a.1 ≤ b.1) m
  have hnd : ((List.insertionSort (fun a b : ℚ × ℚ => a.1 ≤ b.1) m).map Prod.fst).Nodup :=
    ((hperm.map Prod.fst).nodup_iff).mpr h
  have hne := List.pairwise_map.mp hnd
  exact (hsorted.and hne).imp fun hxy => lt_of_le_of_ne hxy.1 hxy.2

/-- C8: after any sequence of initialize and update operations starting
from a fresh book, the snapshot's sorted bid prices are strictly
decreasing and the sorted ask prices strictly increasing (so no price
repeats within one side). -/
theorem C8_sorted_levels_strictly_monotone (ops : List BookOp) :
    ((runOps emptyCache ops).getSortedLevels.1.Pairwise
        fun x y => y.price < x.price) ∧
    ((runOps emptyCache ops).getSortedLevels.2.Pairwise
        fun x y => x.price < y.price) := by
  have hnd := runOps_nodupKeys ops emptyCache List.nodup_nil List.nodup_nil
  constructor
  · exact List.pairwise_map.mpr
      ((pairwise_sort_desc (runOps emptyCache ops).bids hnd.1).imp fun hxy => hxy)
  · exact List.pairwise_map.mpr
      ((pairwise_sort_asc (runOps emptyCache ops).asks hnd.2).imp fun hxy => hxy)

/-! ### Snapshot-derived values -/

/-- C5 counterexample: a snapshot with both sides non-empty but zero
spread (best bid = best ask = 100) has a null `spread_bps`, because the
source's truthiness guard `if self.mid_price and self.spread` treats a
spread of 0.0 as false. -/
theorem C5_counterexample :
    (OrderBookSnapshot.mk [⟨100, 1⟩] [⟨100, 1⟩] 0).bids ≠ [] ∧
    (OrderBookSnapshot.mk [⟨100, 1⟩] [⟨100, 1⟩] 0).asks ≠ [] ∧
    (OrderBookSnapshot.mk [⟨100, 1⟩] [⟨100, 1⟩] 0).spreadVal = some 0 ∧
    (OrderBookSnapshot.mk [⟨100, 1⟩] [⟨100, 1⟩] 0).spreadBps = none := by
  refine ⟨by simp, by simp, by norm_num [OrderBookSnapshot.spreadVal], by
    norm_num [OrderBookSnapshot.spreadBps, OrderBookSnapshot.midPrice,
      OrderBookSnapshot.spreadVal]⟩

/-- C5 (amended): with both sides non-empty, mid equals
(best_bid + best_ask)/2 and spread equals best_ask − best_bid, both
non-null; spread_bps equals spread/mid·10000 and is non-null except
when the spread is 0 or the mid is 0, in which case it is null. With
either side empty, all three are null. -/
theorem C5_snapshot_derived_values :
    (∀ (b a : OrderBookLevel) (bs as : List OrderBookLevel) (ts : ℚ),
      (OrderBookSnapshot.mk (b :: bs) (a :: as) ts).midPrice =
          some ((b.price + a.price) / 2) ∧
      (OrderBookSnapshot.mk (b :: bs) (a :: as) ts).spreadVal =
          some (a.price - b.price) ∧
      (OrderBookSnapshot.mk (b :: bs) (a :: as) ts).spreadBps =
          (if (b.price + a.price) / 2 ≠ 0 ∧ a.price - b.price ≠ 0 then
            some ((a.price - b.price) / ((b.price + a.price) / 2) * 10000)
          else none)) ∧
    (∀ (bids : List OrderBookLevel) (ts : ℚ),
      (OrderBookSnapshot.mk bids [] ts).midPrice = none ∧
      (OrderBookSnapshot.mk bids [] ts).spreadVal = none ∧
      (OrderBookSnapshot.mk bids [] ts).spreadBps = none) ∧
    (∀ (asks : List OrderBookLevel) (ts : ℚ),
      (OrderBookSnapshot.mk [] asks ts).midPrice = none ∧
      (OrderBookSnapshot.mk [] asks ts).spreadVal = none ∧
      (OrderBookSnapshot.mk [] asks ts).spreadBps = none) := by
  refine ⟨fun b a bs as ts => ⟨rfl, rfl, rfl⟩, fun bids ts => ?_, fun asks ts => ?_⟩
  · cases bids <;> exact ⟨rfl, rfl, rfl⟩
  · cases asks <;> exact ⟨rfl, rfl, rfl⟩

/-! ### The walk's accounting invariants -/

/-- The walk conserves notional: cost consumed plus remainder is
constant. -/
theorem walk_cost_add_remaining (ls : List OrderBookLevel) (st : WalkState) :
    (walkLevels ls st).totalCost + (walkLevels ls st).remaining =
      st.totalCost + st.remaining := by
  induction ls generalizing st with
  | nil => rfl
  | cons l rest ih =>
    unfold walkLevels
    by_cases h0 : st.remaining ≤ 0
    · rw [if_pos h0]
    · rw [if_neg h0]
      by_cases h1 : l.price * l.size ≥ st.remaining
      · rw [if_pos h1]
        dsimp only
        ring
      · rw [if_neg h1, ih]
        dsimp only
        ring

/-- The remainder never goes below zero. -/
theorem walk_remaining_nonneg (ls : List OrderBookLevel) (st : WalkState)
    (h : 0 ≤ st.remaining) : 0 ≤ (walkLevels ls st).remaining := by
  induction ls generalizing st with
  | nil => exact h
  | cons l rest ih =>
    unfold walkLevels
    by_cases h0 : st.remaining ≤ 0
    · rw [if_pos h0]
      exact h
    · rw [if_neg h0]
      by_cases h1 : l.price * l.size ≥ st.remaining
      · rw [if_pos h1]
      · rw [if_neg h1]
        exact ih _ (le_of_lt (sub_pos.mpr (lt_of_not_le h1)))

theorem buyCost_total_cons (a : OrderBookLevel) (rest : List OrderBookLevel)
    (S mid : ℚ) :
    (calculate_buy_cost (a :: rest) S mid).total_cost =
      (walkLevels (a :: rest) ⟨S, 0, 0, 0⟩).totalCost := by
  unfold calculate_buy_cost
  dsimp only
  split <;> rfl

theorem buyCost_feasible_cons (a : OrderBookLevel) (rest : List OrderBookLevel)
    (S mid : ℚ) :
    (calculate_buy_cost (a :: rest) S mid).feasible =
      decide ((walkLevels (a :: rest) ⟨S, 0, 0, 0⟩).remaining ≤ 1 / 100) := by
  unfold calculate_buy_cost
  dsimp only
  split <;> rfl

/-- C6 counterexample: with an empty ask list (vacuously all-positive)
and a requested size of 0.005 USD, the unconsumed remainder is
0.005 ≤ 0.01, yet the function reports `feasible = false` through its
empty-book early return. -/
theorem C6_counterexample :
    (calculate_buy_cost [] (1 / 200) 100).feasible = false ∧
    ((1 : ℚ) / 200 ≤ 1 / 100) ∧ (0 < (1 : ℚ) / 200) :=
  ⟨rfl, by norm_num, by norm_num⟩

/-- C6 (amended): for every NON-EMPTY list of ask levels with positive
prices and sizes and every size S > 0, the walk's remainder never goes
below zero, total_cost equals S minus the final remainder, feasible
holds iff the remainder is at most 0.01 USD, and whenever feasible the
total cost is within 0.01 of S. (With an empty ask list the function
returns feasible = false regardless of S.) -/
theorem C6_buy_walk_feasibility (a : OrderBookLevel) (rest : List OrderBookLevel)
    (S mid : ℚ) (hpos : ∀ l ∈ a :: rest, 0 < l.price ∧ 0 < l.size) (hS : 0 < S) :
    0 ≤ (walkLevels (a :: rest) ⟨S, 0, 0, 0⟩).remaining ∧
    (calculate_buy_cost (a :: rest) S mid).total_cost =
      S - (walkLevels (a :: rest) ⟨S, 0, 0, 0⟩).remaining ∧
    ((calculate_buy_cost (a :: rest) S mid).feasible = true ↔
      (walkLevels (a :: rest) ⟨S, 0, 0, 0⟩).remaining ≤ 1 / 100) ∧
    ((calculate_buy_cost (a :: rest) S mid).feasible = true →
      |(calculate_buy_cost (a :: rest) S mid).total_cost - S| ≤ 1 / 100) := by
  have hrem := walk_remaining_nonneg (a :: rest) ⟨S, 0, 0, 0⟩ (le_of_lt hS)
  have hconserve := walk_cost_add_remaining (a :: rest) ⟨S, 0, 0, 0⟩
  have hcost : (calculate_buy_cost (a :: rest) S mid).total_cost =
      S - (walkLevels (a :: rest) ⟨S, 0, 0, 0⟩).remaining := by
    rw [buyCost_total_cons]
    dsimp only at hconserve
    linarith
  have hfeas : (calculate_buy_cost (a :: rest) S mid).feasible = true ↔
      (walkLevels (a :: rest) ⟨S, 0, 0, 0⟩).remaining ≤ 1 / 100 := by
    rw [buyCost_feasible_cons]
    exact decide_eq_true_iff
  refine ⟨hrem, hcost, hfeas, fun hf => ?_⟩
  have hle := hfeas.mp hf
  rw [hcost]
  have : S - (walkLevels (a :: rest) ⟨S, 0, 0, 0⟩).remaining - S =
      -((walkLevels (a :: rest) ⟨S, 0, 0, 0⟩).remaining) := by ring
  rw [this, abs_neg, abs_of_nonneg hrem]
  exact hle

/-- Witness for C6 (amended) at a one-level book. -/
theorem C6_buy_walk_feasibility_witness :
    0 ≤ (walkLevels [⟨101, 1⟩] ⟨50, 0, 0, 0⟩).remaining ∧
    (calculate_buy_cost [⟨101, 1⟩] 50 100).total_cost =
      50 - (walkLevels [⟨101, 1⟩] ⟨50, 0, 0, 0⟩).remaining ∧
    ((calculate_buy_cost [⟨101, 1⟩] 50 100).feasible = true ↔
      (walkLevels [⟨101, 1⟩] ⟨50, 0, 0, 0⟩).remaining ≤ 1 / 100) ∧
    ((calculate_buy_cost [⟨101, 1⟩] 50 100).feasible = true →
      |(calculate_buy_cost [⟨101, 1⟩] 50 100).total_cost - 50| ≤ 1 / 100) :=
  C6_buy_walk_feasibility ⟨101, 1⟩ [] 50 100
    (by
      intro l hl
      simp at hl
      rw [hl]
      norm_num)
    (by norm_num)

/-! ### Empty-side metrics and the full ladder -/

/-- C7 counterexample: on a snapshot whose mid is null (empty bid side),
`calculate_all_metrics` returns an empty metrics map, so no per-size
metric — in particular none for the ladder size 1000 — is present. -/
theorem C7_counterexample :
    (calculate_all_metrics ⟨[], [⟨101, 1⟩], 5⟩ LIQUIDITY_SIZES).metrics = [] ∧
    (1000 : ℚ) ∈ LIQUIDITY_SIZES := by
  refine ⟨rfl, ?_⟩
  simp [LIQUIDITY_SIZES]

/-- C7 (amended): a walk against an empty opposing side returns exactly
the zero metric with `feasible = false`; `calculate_all_metrics` emits
one buy/sell metric pair per ladder size whenever the snapshot's mid is
non-null, and an EMPTY metrics map (no per-size entries at all) when
the mid is null. -/
theorem C7_empty_side_metrics :
    (∀ S mid : ℚ,
      calculate_buy_cost [] S mid =
        { size_usd := S, total_cost := 0, avg_price := 0, slippage_bps := 0,
          levels_used := 0, feasible := false } ∧
      calculate_sell_cost [] S mid =
        { size_usd := S, total_cost := 0, avg_price := 0, slippage_bps := 0,
          levels_used := 0, feasible := false }) ∧
    (∀ ob : OrderBookSnapshot, ob.midPrice = none →
      (calculate_all_metrics ob LIQUIDITY_SIZES).metrics = []) ∧
    (∀ ob : OrderBookSnapshot, ∀ mid : ℚ, ob.midPrice = some mid →
      (calculate_all_metrics ob LIQUIDITY_SIZES).metrics =
        LIQUIDITY_SIZES.map fun s =>
          (s, calculate_buy_cost ob.asks s mid, calculate_sell_cost ob.bids s mid)) := by
  refine ⟨fun S mid => ⟨rfl, rfl⟩, fun ob h => ?_, fun ob mid h => ?_⟩
  · unfold calculate_all_metrics
    rw [h]
  · unfold calculate_all_metrics
    rw [h]

/-- Witness for C7 (amended) on concrete snapshots. -/
theorem C7_empty_side_metrics_witness :
    (calculate_all_metrics ⟨[⟨99, 2⟩], [], 7⟩ LIQUIDITY_SIZES).metrics = [] ∧
    (calculate_all_metrics ⟨[⟨100, 1⟩], [⟨102, 1⟩], 5⟩ LIQUIDITY_SIZES).metrics =
      LIQUIDITY_SIZES.map fun s =>
        (s, calculate_buy_cost [⟨102, 1⟩] s ((100 + 102) / 2),
          calculate_sell_cost [⟨100, 1⟩] s ((100 + 102) / 2)) :=
  ⟨C7_empty_side_metrics.2.1 ⟨[⟨99, 2⟩], [], 7⟩ rfl,
   C7_empty_side_metrics.2.2 ⟨[⟨100, 1⟩], [⟨102, 1⟩], 5⟩ ((100 + 102) / 2) rfl⟩

/-! ### Tick-price callback behaviour -/

/-- Unfolding lemma: `update_orderbook` is exactly: mutate the cache as the snapshot test
dictates, then derive. -/
theorem updateOrderbook_eq (st : BookState) (b a : List OrderBookLevel)
    (ts : ℚ) (snap : Bool) :
    updateOrderbook st b a ts snap =
      updateFromCache
        { st with
          cache := if snap || !st.cache.inited then st.cache.initFull b a ts
                   else st.cache.updateCache b a ts } ts := rfl

/-- When a callback is registered, deriving from the cache fires it
exactly once if the cache holds a valid book, and never otherwise —
independently of any previously published mid. -/
theorem updateFromCache_events (st : BookState) (ts : ℚ)
    (hcb : st.hasCallback = true) :
    (updateFromCache st ts).2.length =
      if st.cache.hasValidBook = true then 1 else 0 := by
  unfold updateFromCache
  by_cases hv : st.cache.hasValidBook = false
  · rw [if_pos hv, hv]
    simp
  · have hv' : st.cache.hasValidBook = true := by
      revert hv
      cases st.cache.hasValidBook <;> simp
    rw [if_neg hv, hv', if_pos rfl]
    have hvb := hv'
    simp only [OrderbookCache.hasValidBook, Bool.and_eq_true, decide_eq_true_eq] at hvb
    have hb0 : 0 < st.cache.getSortedLevels.1.length := by
      simpa [OrderbookCache.getSortedLevels,
        (List.perm_insertionSort (fun a b : ℚ × ℚ => b.1 ≤ a.1) st.cache.bids).length_eq]
        using hvb.1.2
    have ha0 : 0 < st.cache.getSortedLevels.2.length := by
      simpa [OrderbookCache.getSortedLevels,
        (List.perm_insertionSort (fun a b : ℚ × ℚ => a.1 ≤ b.1) st.cache.asks).length_eq]
        using hvb.2
    cases hbs : st.cache.getSortedLevels.1 with
    | nil => rw [hbs] at hb0; simp at hb0
    | cons b bs =>
      cases has : st.cache.getSortedLevels.2 with
      | nil => rw [has] at ha0; simp at ha0
      | cons a as => simp [hbs, has, OrderBookSnapshot.midPrice, hcb]

/-- The first committed book state used by the tick counterexamples:
a fresh key after one snapshot update with bids [(100, 1)] and asks
[(102, 1)] at time 1 (published mid 101). -/
def cexBase : BookState :=
  (updateOrderbook (initialBookState 3600 true) [⟨100, 1⟩] [⟨102, 1⟩] 1 true).1

/-- C3 counterexample: from `cexBase` (published mid 101), an empty diff
update at time 2 leaves mid at 101 — a duplicate mid — yet the tick
callback is still invoked (once, not zero times). -/
theorem C3_counterexample :
    cexBase.orderbook.map OrderBookSnapshot.midPrice = some (some 101) ∧
    ((updateOrderbook cexBase [] [] 2 false).1.orderbook.map
        OrderBookSnapshot.midPrice = some (some 101)) ∧
    ¬((updateOrderbook cexBase [] [] 2 false).2.length = 0) := by
  have h1 : cexBase.orderbook = some ⟨[⟨100, 1⟩], [⟨102, 1⟩], 1⟩ := rfl
  have h2 : (updateOrderbook cexBase [] [] 2 false).1.orderbook =
      some ⟨[⟨100, 1⟩], [⟨102, 1⟩], 2⟩ := rfl
  have h3 : (updateOrderbook cexBase [] [] 2 false).2 =
      [{ price := (100 + 102) / 2, timestamp := 2 }] := rfl
  refine ⟨?_, ?_, ?_⟩
  · rw [h1]
    norm_num [OrderBookSnapshot.midPrice]
  · rw [h2]
    norm_num [OrderBookSnapshot.midPrice]
  · rw [h3]
    simp

/-- C3 (amended): with a callback registered, every committed update
whose post-mutation book has both sides non-empty fires the tick-price
callback exactly once — also when the resulting mid equals the
previously published mid; an update leaving a side empty fires none. -/
theorem C3_tick_per_update (st : BookState) (bids asks : List OrderBookLevel)
    (ts : ℚ) (is_snapshot : Bool) (hcb : st.hasCallback = true) :
    (updateOrderbook st bids asks ts is_snapshot).2.length =
      if (updateOrderbook st bids asks ts is_snapshot).1.cache.hasValidBook = true
      then 1 else 0 := by
  rw [updateOrderbook_eq, updateFromCache_cache]
  exact updateFromCache_events _ ts hcb

/-- Witness for C3 (amended): a duplicate-mid diff update still fires
exactly one tick. -/
theorem C3_tick_per_update_witness :
    (updateOrderbook seededState [] [] 2 false).2.length =
      if (updateOrderbook seededState [] [] 2 false).1.cache.hasValidBook = true
      then 1 else 0 :=
  C3_tick_per_update seededState [] [] 2 false rfl

/-! ### Derivation-on-write of snapshot and metrics -/

/-- What deriving from the cache stores: with a valid book it replaces
the snapshot and metrics slots with values recomputed from the current
price maps; with an invalid book (a side empty) the state is returned
untouched. -/
theorem updateFromCache_derives (st : BookState) (ts : ℚ) :
    (st.cache.hasValidBook = true →
      (updateFromCache st ts).1.orderbook =
        some ⟨st.cache.getSortedLevels.1, st.cache.getSortedLevels.2, ts⟩ ∧
      (updateFromCache st ts).1.metrics =
        some (calculate_all_metrics
          ⟨st.cache.getSortedLevels.1, st.cache.getSortedLevels.2, ts⟩
          LIQUIDITY_SIZES)) ∧
    (st.cache.hasValidBook = false → (updateFromCache st ts).1 = st) := by
  constructor
  · intro hv
    unfold updateFromCache
    rw [hv]
    cases hmid : (OrderBookSnapshot.mk st.cache.getSortedLevels.1
        st.cache.getSortedLevels.2 ts).midPrice with
    | some mid => simp [hmid]
    | none => simp [hmid]
  · intro hv
    unfold updateFromCache
    rw [if_pos hv]

/-- C4 counterexample: from `cexBase` (stored snapshot at time 1 with
one ask), a diff at time 2 deleting the only ask empties the cached ask
map, yet the stored snapshot keeps the old ask level and timestamp 1,
and the stored metrics are not replaced either — the derived values are
NOT recomputed for a resulting state with an empty side. -/
theorem C4_counterexample :
    ((updateOrderbook cexBase [] [⟨102, 0⟩] 2 false).1.cache.asks = []) ∧
    ((updateOrderbook cexBase [] [⟨102, 0⟩] 2 false).1.orderbook.map
        OrderBookSnapshot.asks = some [⟨102, 1⟩]) ∧
    ((updateOrderbook cexBase [] [⟨102, 0⟩] 2 false).1.orderbook.map
        OrderBookSnapshot.timestamp = some 1) ∧
    ((updateOrderbook cexBase [] [⟨102, 0⟩] 2 false).1.metrics = cexBase.metrics) :=
  ⟨rfl, rfl, rfl, rfl⟩

/-- C4 (amended): `initialize_orderbook` is the `is_snapshot = true`
case of `update_orderbook`; after either operation the stored snapshot
and liquidity metrics are recomputed from the just-mutated price maps
and replace the previous values ONLY when the resulting book has both
sides non-empty; when a side ends up empty, the previously stored
snapshot and metrics are retained unchanged (and the operation still
succeeds). -/
theorem C4_derive_on_write (st : BookState) (bids asks : List OrderBookLevel)
    (ts : ℚ) (is_snapshot : Bool) :
    (initOrderbook st bids asks ts = updateOrderbook st bids asks ts true) ∧
    ((updateOrderbook st bids asks ts is_snapshot).1.cache.hasValidBook = true →
      (updateOrderbook st bids asks ts is_snapshot).1.orderbook =
        some ⟨(updateOrderbook st bids asks ts is_snapshot).1.cache.getSortedLevels.1,
              (updateOrderbook st bids asks ts is_snapshot).1.cache.getSortedLevels.2,
              ts⟩ ∧
      (updateOrderbook st bids asks ts is_snapshot).1.metrics =
        some (calculate_all_metrics
          ⟨(updateOrderbook st bids asks ts is_snapshot).1.cache.getSortedLevels.1,
           (updateOrderbook st bids asks ts is_snapshot).1.cache.getSortedLevels.2,
           ts⟩ LIQUIDITY_SIZES)) ∧
    ((updateOrderbook st bids asks ts is_snapshot).1.cache.hasValidBook = false →
      (updateOrderbook st bids asks ts is_snapshot).1.orderbook = st.orderbook ∧
      (updateOrderbook st bids asks ts is_snapshot).1.metrics = st.metrics) := by
  refine ⟨rfl, ?_, ?_⟩
  · intro hv
    rw [updateOrderbook_eq, updateFromCache_cache] at hv ⊢
    exact (updateFromCache_derives _ ts).1 hv
  · intro hv
    rw [updateOrderbook_eq, updateFromCache_cache] at hv
    rw [updateOrderbook_eq]
    have h := (updateFromCache_derives _ ts).2 hv
    rw [h]
    exact ⟨rfl, rfl⟩

/-- Witness for C4 (amended): a valid-book update replaces the derived
slots and an ask-deleting update retains them. -/
theorem C4_derive_on_write_witness :
    ((updateOrderbook seededState [] [] 2 false).1.orderbook =
      some ⟨(updateOrderbook seededState [] [] 2 false).1.cache.getSortedLevels.1,
            (updateOrderbook seededState [] [] 2 false).1.cache.getSortedLevels.2,
            2⟩) ∧
    ((updateOrderbook cexBase [] [⟨102, 0⟩] 2 false).1.metrics = cexBase.metrics) :=
  ⟨((C4_derive_on_write seededState [] [] 2 false).2.1 rfl).1,
   ((C4_derive_on_write cexBase [] [⟨102, 0⟩] 2 false).2.2 rfl).2⟩

/-! ### Price history -/

theorem dropWhile_concat_ne_nil {α : Type} (p : α → Bool) (l : List α) (z : α)
    (hz : p z = false) : (l ++ [z]).dropWhile p ≠ [] := by
  induction l with
  | nil => simp [List.dropWhile, hz]
  | cons a l ih =>
    rw [List.cons_append, List.dropWhile_cons]
    split
    · exact ih
    · simp

theorem getLast?_dropWhile_concat {α : Type} (p : α → Bool) (l : List α) (z : α)
    (hz : p z = false) : ((l ++ [z]).dropWhile p).getLast? = some z := by
  induction l with
  | nil => simp [List.dropWhile, hz]
  | cons a l ih =>
    rw [List.cons_append, List.dropWhile_cons]
    split
    · exact ih
    · rw [← List.cons_append, List.getLast?_concat]

theorem head?_dropWhile_false {α : Type} (p : α → Bool) (l : List α) (x : α)
    (hx : (l.dropWhile p).head? = some x) : p x = false := by
  have h := List.head?_dropWhile_not p l
  rw [hx] at h
  exact h

/-- One step of `_update_price_history`: after appending at time `t`
(with every prior entry at time ≤ `t`) and pruning, all entries are
still at time ≤ `t`, the newest (last) entry is the appended one, the
oldest (front) entry is no older than `t - winSecs`, and the length
grew by at most one. -/
theorem updatePriceHistory_step (h : List PricePoint) (pr t s : ℚ) (hs : 0 ≤ s)
    (hbound : ∀ e ∈ h, e.timestamp ≤ t) :
    (∀ e ∈ updatePriceHistory h pr t s, e.timestamp ≤ t) ∧
    (updatePriceHistory h pr t s).getLast? =
      some { timestamp := t, price := pr } ∧
    (∀ x, (updatePriceHistory h pr t s).head? = some x → t - s ≤ x.timestamp) ∧
    (updatePriceHistory h pr t s).length ≤ h.length + 1 := by
  have hz : (fun p : PricePoint => decide (p.timestamp < t - s))
      ({ timestamp := t, price := pr } : PricePoint) = false := by
    simp only [decide_eq_false_iff_not, not_lt]
    linarith
  refine ⟨?_, ?_, ?_, ?_⟩
  · intro e he
    have hmem : e ∈ h ++ [({ timestamp := t, price := pr } : PricePoint)] :=
      (List.dropWhile_suffix _).subset he
    rcases List.mem_append.mp hmem with hm | hm
    · exact hbound e hm
    · rw [List.mem_singleton.mp hm]
  · exact getLast?_dropWhile_concat _ h _ hz
  · intro x hx
    have := head?_dropWhile_false _ _ x hx
    simp only [decide_eq_false_iff_not, not_lt] at this
    exact this
  · calc (updatePriceHistory h pr t s).length
        ≤ (h ++ [({ timestamp := t, price := pr } : PricePoint)]).length :=
          (List.dropWhile_suffix _).sublist.length_le
      _ = h.length + 1 := by simp

/-- Every entry of a run of appends bounded by `t` has timestamp ≤ `t`. -/
theorem runHistoryFrom_bound (appends : List (ℚ × ℚ)) (h : List PricePoint)
    (s t : ℚ) (hh : ∀ e ∈ h, e.timestamp ≤ t) (happ : ∀ x ∈ appends, x.1 ≤ t) :
    ∀ e ∈ appends.foldl (fun h e => updatePriceHistory h e.2 e.1 s) h,
      e.timestamp ≤ t := by
  induction appends generalizing h with
  | nil => exact hh
  | cons z zs ih =>
    rw [List.foldl_cons]
    refine ih (updatePriceHistory h z.2 z.1 s) ?_
      fun x hx => happ x (List.mem_cons_of_mem z hx)
    intro e he
    have hmem : e ∈ h ++ [({ timestamp := z.1, price := z.2 } : PricePoint)] :=
      (List.dropWhile_suffix _).subset he
    rcases List.mem_append.mp hmem with hm | hm
    · exact hh e hm
    · rw [List.mem_singleton.mp hm]
      exact happ z (List.mem_cons_self z zs)

theorem runHistoryFrom_length (appends : List (ℚ × ℚ)) (h : List PricePoint)
    (s : ℚ) :
    (appends.foldl (fun h e => updatePriceHistory h e.2 e.1 s) h).length ≤
      h.length + appends.length := by
  induction appends generalizing h with
  | nil => simp
  | cons z zs ih =>
    rw [List.foldl_cons]
    calc (zs.foldl (fun h e => updatePriceHistory h e.2 e.1 s)
            (updatePriceHistory h z.2 z.1 s)).length
        ≤ (updatePriceHistory h z.2 z.1 s).length + zs.length := ih _
      _ ≤ (h.length + 1) + zs.length := by
          have : (updatePriceHistory h z.2 z.1 s).length ≤ h.length + 1 := by
            calc (updatePriceHistory h z.2 z.1 s).length
                ≤ (h ++ [({ timestamp := z.1, price := z.2 } : PricePoint)]).length :=
                  (List.dropWhile_suffix _).sublist.length_le
              _ = h.length + 1 := by simp
          omega
      _ = h.length + (z :: zs).length := by simp; omega

/-- C9 counterexample: with the default 3600 s window, appending at
time 10000 and then at time 10 (an out-of-order timestamp) leaves both
entries in the history: the oldest retained entry (front, time 10000)
is 9990 seconds away from the newest entry (back, time 10) — far
outside the window. -/
theorem C9_counterexample :
    ((runHistory [(10000, 50), (10, 60)] 3600).head?.map PricePoint.timestamp =
      some 10000) ∧
    ((runHistory [(10000, 50), (10, 60)] 3600).getLast?.map PricePoint.timestamp =
      some 10) ∧
    ((runHistory [(10000, 50), (10, 60)] 3600).length = 2) ∧
    ¬(|(10000 : ℚ) - 10| ≤ 3600) := by
  have hrun : runHistory [(10000, 50), (10, 60)] 3600 =
      [{ timestamp := 10000, price := 50 }, { timestamp := 10, price := 60 }] := by
    norm_num [runHistory, updatePriceHistory, List.dropWhile_cons, List.dropWhile_nil]
  rw [hrun]
  refine ⟨rfl, rfl, rfl, ?_⟩
  rw [abs_of_nonneg (by norm_num)]
  norm_num

/-- C9 (amended): provided the appended timestamps are non-decreasing
(as they are for in-order update streams), the history never holds more
than one entry per append, and the oldest retained entry's timestamp is
within `price_history_seconds` of the newest entry's timestamp. -/
theorem C9_price_history_window (appends : List (ℚ × ℚ)) (s : ℚ) (hs : 0 ≤ s)
    (hmono : appends.Chain' fun x y => x.1 ≤ y.1) :
    (runHistory appends s).length ≤ appends.length ∧
    (∀ x y, (runHistory appends s).head? = some x →
      (runHistory appends s).getLast? = some y →
      x.timestamp ≤ y.timestamp ∧ y.timestamp - x.timestamp ≤ s) := by
  constructor
  · simpa using runHistoryFrom_length appends [] s
  · rcases List.eq_nil_or_concat appends with hnil | ⟨pre, z, hcat⟩
    · intro x y hx _
      rw [hnil] at hx
      simp [runHistory] at hx
    · intro x y hx hy
      rw [hcat, List.concat_eq_append] at hx hy
      have hsplit : runHistory (pre ++ [z]) s =
          updatePriceHistory (runHistory pre s) z.2 z.1 s := by
        unfold runHistory
        rw [List.foldl_append]
        rfl
      rw [hsplit] at hx hy
      have hpre : ∀ x ∈ pre, x.1 ≤ z.1 := by
        haveI : IsTrans (ℚ × ℚ) fun x y : ℚ × ℚ => x.1 ≤ y.1 :=
          ⟨fun _ _ _ h1 h2 => le_trans h1 h2⟩
        have hpw := List.chain'_iff_pairwise.mp (hcat ▸ hmono)
        rw [List.concat_eq_append, List.pairwise_append] at hpw
        exact fun x hxp => hpw.2.2 x hxp z (List.mem_singleton_self z)
      have hbound : ∀ e ∈ runHistory pre s, e.timestamp ≤ z.1 :=
        runHistoryFrom_bound pre [] s z.1 (by simp) hpre
      have hstep := updatePriceHistory_step (runHistory pre s) z.2 z.1 s hs hbound
      have hy' : y = { timestamp := z.1, price := z.2 } := by
        have := hstep.2.1
        rw [hy] at this
        exact Option.some_inj.mp this
      have hxmem : x ∈ updatePriceHistory (runHistory pre s) z.2 z.1 s :=
        List.mem_of_mem_head? hx
      have hxle : x.timestamp ≤ z.1 := hstep.1 x hxmem
      have hxge : z.1 - s ≤ x.timestamp := hstep.2.2.1 x hx
      rw [hy']
      exact ⟨hxle, by linarith⟩

/-- Witness for C9 (amended) on an in-order append sequence. -/
theorem C9_price_history_window_witness :
    (runHistory [(5, 50), (6, 60)] 3600).length ≤ 2 ∧
    (({ timestamp := 5, price := 50 } : PricePoint).timestamp ≤
        ({ timestamp := 6, price := 60 } : PricePoint).timestamp ∧
      ({ timestamp := 6, price := 60 } : PricePoint).timestamp -
        ({ timestamp := 5, price := 50 } : PricePoint).timestamp ≤ 3600) := by
  have h := C9_price_history_window [(5, 50), (6, 60)] 3600 (by norm_num)
    (by
      rw [List.chain'_cons]
      refine ⟨by norm_num, List.chain'_singleton _⟩)
  refine ⟨by simpa using h.1, h.2 ⟨5, 50⟩ ⟨6, 60⟩ ?_ ?_⟩
  · norm_num [runHistory, updatePriceHistory, List.dropWhile_cons, List.dropWhile_nil]
  · norm_num [runHistory, updatePriceHistory, List.dropWhile_cons, List.dropWhile_nil,
      List.getLast?_concat]

/-! ### Division safety of the liquidity walks -/

/-- The guarded walk never evaluates a division by zero: it agrees with
the plain walk on every input. The per-level division is reached only
when the level notional covers a strictly positive remainder, which
forces the level price to be nonzero. -/
theorem walkLevelsChecked_eq (ls : List OrderBookLevel) (st : WalkState) :
    walkLevelsChecked ls st = some (walkLevels ls st) := by
  induction ls generalizing st with
  | nil => rfl
  | cons l rest ih =>
    unfold walkLevelsChecked walkLevels
    by_cases h0 : st.remaining ≤ 0
    · rw [if_pos h0, if_pos h0]
    · rw [if_neg h0, if_neg h0]
      by_cases h1 : l.price * l.size ≥ st.remaining
      · rw [if_pos h1, if_pos h1]
        have hp : l.price ≠ 0 := by
          intro hp
          rw [hp, zero_mul] at h1
          exact h0 h1
        simp [divChecked, hp]
      · rw [if_neg h1, if_neg h1]
        exact ih _

/-- C10: on EVERY input — including level lists containing zero prices
or zero sizes, and any requested size — both liquidity walks evaluate
all of their divisions (remainder by level price, average by consumed
tokens, slippage by mid) only with nonzero divisors: the fully guarded
variants return `some` of the unguarded results. -/
theorem C10_no_division_by_zero :
    (∀ (asks : List OrderBookLevel) (S mid : ℚ),
      calculate_buy_cost_checked asks S mid = some (calculate_buy_cost asks S mid)) ∧
    (∀ (bids : List OrderBookLevel) (S mid : ℚ),
      calculate_sell_cost_checked bids S mid = some (calculate_sell_cost bids S mid)) := by
  constructor
  · intro asks S mid
    cases asks with
    | nil => rfl
    | cons a rest =>
      unfold calculate_buy_cost_checked calculate_buy_cost
      rw [walkLevelsChecked_eq]
      by_cases ht : 0 < (walkLevels (a :: rest) ⟨S, 0, 0, 0⟩).totalTokens
      · have htok : (walkLevels (a :: rest) ⟨S, 0, 0, 0⟩).totalTokens ≠ 0 :=
          ne_of_gt ht
        by_cases hm : 0 < mid
        · have hmid : mid ≠ 0 := ne_of_gt hm
          simp [ht, hm, divChecked, htok, hmid]
        · simp [ht, hm, divChecked, htok]
      · simp [ht]
  · intro bids S mid
    cases bids with
    | nil => rfl
    | cons a rest =>
      unfold calculate_sell_cost_checked calculate_sell_cost
      rw [walkLevelsChecked_eq]
      by_cases ht : 0 < (walkLevels (a :: rest) ⟨S, 0, 0, 0⟩).totalTokens
      · have htok : (walkLevels (a :: rest) ⟨S, 0, 0, 0⟩).totalTokens ≠ 0 :=
          ne_of_gt ht
        by_cases hm : 0 < mid
        · have hmid : mid ≠ 0 := ne_of_gt hm
          simp [ht, hm, divChecked, htok, hmid]
        · simp [ht, hm, divChecked, htok]
      · simp [ht]
